import Mathlib

/-!
Verification of the RetroVerse video-library core: the tier classifier
(`tierFromPlaycount`), the path normalizer (`normalizeVideoPath`), the record
normalizer (`parseVideoIndexRows`), the search-query parser (`parseSearch`),
the library filter's text/year stage, the weighted set sampler
(`weightedPick`) and the history weight aggregation of the set-builder page.

Modelling conventions:
* JavaScript numbers are modelled as `ℚ` for finite values; the non-finite
  values (NaN, +Infinity, -Infinity) are merged into a single marker because
  every code path under verification only ever asks `Number.isFinite` of
  them.  An optional number is `Option ℚ` with `none` for "not finite".
* Strings are sequences of characters (exact for all the ASCII data the
  claims exercise).
* A heterogeneous JavaScript value (the raw index rows are untyped JSON) is
  modelled by the inductive `JVal` below.
-/

/-- A JavaScript runtime value as seen by the normalization pipeline. -/
inductive JVal where
  /-- a finite number -/
  | jnum (q : ℚ)
  /-- a non-finite number: NaN, Infinity or -Infinity -/
  | jnumNF
  | jstr (s : String)
  | jbool (b : Bool)
  | jnull
  | jundefined
  /-- a plain object, as an association list of properties -/
  | jobj (fields : List (String × JVal))
  /-- an array -/
  | jarr (elems : List JVal)
deriving Inhabited

/-- Digit-string value: `foldl` over decimal digits. -/
def decDigitsVal (cs : List Char) : ℕ :=
  cs.foldl (fun a c => 10 * a + (c.toNat - '0'.toNat)) 0

/-- Modelled builtin: `String.prototype.trim` (drop leading and trailing
whitespace).  Implemented over the character list so that it evaluates by
kernel reduction (the core library version does not). -/
def jsTrim (s : String) : String :=
  ((s.data.dropWhile Char.isWhitespace).reverse.dropWhile Char.isWhitespace).reverse.asString

/-- Modelled builtin: `toLowerCase`, character-pointwise (exact on ASCII). -/
def strToLower (s : String) : String := (s.data.map Char.toLower).asString

/-- Modelled builtin: `toUpperCase`, character-pointwise (exact on ASCII). -/
def strToUpper (s : String) : String := (s.data.map Char.toUpper).asString

/-- JS `String.prototype.split` on a non-empty literal separator:
non-overlapping occurrences, scanned left to right.  The fuel starts at the
subject length and is never exhausted (each step consumes at least one
character). -/
def splitOnSubGo (sep : List Char) : ℕ → List Char → List Char → List (List Char)
  | _, [], acc => [acc.reverse]
  | 0, cs, acc => [acc.reverse ++ cs]
  | fuel + 1, c :: rest, acc =>
    if sep ≠ [] ∧ sep = (c :: rest).take sep.length then
      acc.reverse :: splitOnSubGo sep fuel ((c :: rest).drop sep.length) []
    else splitOnSubGo sep fuel rest (c :: acc)

def strSplitOnSub (s sep : String) : List String :=
  if sep = "" then [s]
  else (splitOnSubGo sep.data s.data.length s.data []).map List.asString

/-- Exponent suffix of a JS numeric literal: empty means exponent 0;
otherwise `e`/`E`, an optional sign and at least one digit. -/
def parseExpPart : List Char → Option Int
  | [] => some 0
  | e :: rest =>
    if e = 'e' ∨ e = 'E' then
      match rest with
      | '+' :: ds => if ds ≠ [] ∧ ds.all Char.isDigit then some (decDigitsVal ds) else none
      | '-' :: ds => if ds ≠ [] ∧ ds.all Char.isDigit then some (-(decDigitsVal ds : Int)) else none
      | ds => if ds ≠ [] ∧ ds.all Char.isDigit then some (decDigitsVal ds) else none
    else none

/-- Unsigned part of ECMAScript `StringToNumber`: `Infinity`, or a decimal
literal `digits [. digits] [exp]` / `. digits [exp]`.  `none` means the
result is not a finite number. -/
def jsStrNumCore (cs : List Char) : Option ℚ :=
  if cs = "Infinity".data then none
  else
    let ip := cs.takeWhile Char.isDigit
    let r1 := cs.dropWhile Char.isDigit
    match r1 with
    | '.' :: r2 =>
      let fp := r2.takeWhile Char.isDigit
      let r3 := r2.dropWhile Char.isDigit
      if ip = [] ∧ fp = [] then none
      else
        (parseExpPart r3).map (fun e =>
          ((decDigitsVal ip : ℚ) + (decDigitsVal fp : ℚ) / (10 : ℚ) ^ fp.length) * (10 : ℚ) ^ e)
    | _ =>
      if ip = [] then none
      else (parseExpPart r1).map (fun e => (decDigitsVal ip : ℚ) * (10 : ℚ) ^ e)

/-- Modelled builtin: ECMAScript `Number(string)`.  Whitespace is trimmed,
the empty string is 0, a leading sign is honoured; `none` stands for a
non-finite result (NaN or ±Infinity).  The hexadecimal/octal/binary literal
forms of the builtin are not modelled (no claim exercises them). -/
def jsStringToNumber (s : String) : Option ℚ :=
  let t := jsTrim s
  if t = "" then some 0
  else
    match t.data with
    | '+' :: rest => jsStrNumCore rest
    | '-' :: rest => (jsStrNumCore rest).map (fun q => -q)
    | _ => jsStrNumCore t.data

/-- Modelled builtin: ECMAScript `ToNumber`; `none` = not a finite number.
`ToNumber` of an array goes through string conversion and is not modelled
(no claim exercises it); a plain object converts to NaN. -/
def jsToNumber : JVal → Option ℚ
  | .jnum q => some q
  | .jnumNF => none
  | .jstr s => jsStringToNumber s
  | .jbool b => some (if b then 1 else 0)
  | .jnull => some 0
  | .jundefined => none
  | .jobj _ => none
  | .jarr _ => none

/-- JS `Math.trunc` on a finite number: truncation toward zero. -/
def jsTrunc (q : ℚ) : Int := if 0 ≤ q then ⌊q⌋ else ⌈q⌉

/-- JS `Math.round` on a finite number: `⌊q + 1/2⌋`. -/
def jsRound (q : ℚ) : Int := ⌊q + 1 / 2⌋

/-- The `??` operator: `a ?? b` is `b` exactly when `a` is `undefined` or `null`. -/
def jvalCoalesce (a b : JVal) : JVal :=
  match a with
  | .jundefined => b
  | .jnull => b
  | _ => a

/-- The `||` operator on strings: the empty string is the only falsy string. -/
def strOr (a b : String) : String := if a = "" then b else a

/-- Option coalescing, modelling `??` on already-parsed optional values. -/
def ocoal {α : Type} (a b : Option α) : Option α :=
  match a with
  | some x => some x
  | none => b

/-- Property read `v[k]` (with `?.` semantics): `undefined` unless `v` is a
plain object that has the property. -/
def jget (v : JVal) (k : String) : JVal :=
  match v with
  | .jobj fs => (fs.lookup k).getD .jundefined
  | _ => .jundefined

/-- First index at which `pat` occurs in `cs` (JS `String.prototype.indexOf`). -/
def strIndexOfAux (pat : List Char) : List Char → ℕ → Option ℕ
  | [], i => if pat = [] then some i else none
  | c :: rest, i =>
    if pat = (c :: rest).take pat.length then some i
    else strIndexOfAux pat rest (i + 1)

/-- JS `s.indexOf(pat)`, as an `Option` (the code compares against `-1`). -/
def strIndexOf? (s pat : String) : Option ℕ := strIndexOfAux pat.data s.data 0

/-- JS `s.slice(n)` (on the character model of strings). -/
def strDrop (s : String) (n : ℕ) : String := (s.data.drop n).asString

/-- JS `s.startsWith(p)`. -/
def strStartsWith (s p : String) : Bool := p.data = s.data.take p.data.length

/-- JS `s.replace(/\\/g, '/')`. -/
def replaceBackslashes (s : String) : String :=
  (s.data.map (fun c => if c = '\\' then '/' else c)).asString

/-- `'c'.repeat(n)`. -/
def charRepeat (c : Char) (n : ℕ) : String := (List.replicate n c).asString

/-- JS `String(n)` for a finite number.  Exact for integers (the only
numeric-to-string conversions the claims exercise); a non-integral rational
is rendered as `num/den` rather than the shortest-round-trip decimal. -/
def jsNumToString (q : ℚ) : String :=
  if q.den = 1 then q.num.repr else q.num.repr ++ "/" ++ q.den.repr

/- ---------------------------------------------------------------------
src/lib/tierMapping (re-exported by src/lib/media/thumbnail.js):
the tier classifier.
--------------------------------------------------------------------- -/

/-- The canonical rotation tier enumeration. -/
inductive CanonicalTier where
  | Promo | Light | Medium | Heavy | Power
deriving DecidableEq, Inhabited

def TIER_ORDER : List CanonicalTier :=
  [.Promo, .Light, .Medium, .Heavy, .Power]

/-- `tierFromPlaycount(playcount)`: the argument is a JS number
(`none` = non-finite). -/
def tierFromPlaycount (playcount : Option ℚ) : Option CanonicalTier :=
  match playcount with
  | none => none
  | some q =>
    if q ≤ 1 then some .Promo
    else if q ≤ 7 then some .Light
    else if q ≤ 15 then some .Medium
    else if q ≤ 29 then some .Heavy
    else some .Power

/-- The literal name of a canonical tier (the TypeScript value is the string). -/
def canonicalTierStr : CanonicalTier → String
  | .Promo => "Promo"
  | .Light => "Light"
  | .Medium => "Medium"
  | .Heavy => "Heavy"
  | .Power => "Power"

/- ---------------------------------------------------------------------
src/lib/videoPath (re-exported by src/lib/decisionsClient.ts):
the path normalizer.
--------------------------------------------------------------------- -/

def CANONICAL_VIDEO_ROOT : String := "/Users/bobhopp/Library/CloudStorage/Dropbox/VIDEO"

structure NormalizedPath where
  relativePath : Option String
  absolutePath : Option String
deriving DecidableEq, Inhabited

/-- `normalizeVideoPath(inputPath)`: locate the forward-slash marker
`/VIDEO/`, keep the tail from one character past the marker's start
(so the relative path keeps a leading `VIDEO/`), convert backslashes in
that tail, and rebuild a canonical absolute path. -/
def normalizeVideoPath (inputPath : String) : NormalizedPath :=
  if inputPath = "" then ⟨none, none⟩
  else
    match strIndexOf? inputPath "/VIDEO/" with
    | none => ⟨none, none⟩
    | some idx =>
      let tail := strDrop inputPath (idx + 1)
      let relativePath := replaceBackslashes tail
      let stripped :=
        if strStartsWith relativePath "VIDEO/" then strDrop relativePath 6 else relativePath
      ⟨some relativePath, some (CANONICAL_VIDEO_ROOT ++ "/" ++ stripped)⟩

/- ---------------------------------------------------------------------
src/lib/videoIndex (src/unnamed/part_003): the record normalizer.
--------------------------------------------------------------------- -/

/-- A raw index row: every upstream field the normalizer reads, as an
untyped JS value (`jundefined` = property absent). -/
structure RawItem where
  filePath : JVal := .jundefined
  filepath : JVal := .jundefined
  title : JVal := .jundefined
  artist : JVal := .jundefined
  author : JVal := .jundefined
  album : JVal := .jundefined
  genre : JVal := .jundefined
  label : JVal := .jundefined
  bpm : JVal := .jundefined
  key : JVal := .jundefined
  comments : JVal := .jundefined
  year : JVal := .jundefined
  duration_sec : JVal := .jundefined
  durationSeconds : JVal := .jundefined
  duration : JVal := .jundefined
  playcount : JVal := .jundefined
  playCount : JVal := .jundefined
  play_count : JVal := .jundefined
  firstSeen : JVal := .jundefined
  first_seen : JVal := .jundefined
  first_seen_ts : JVal := .jundefined
  addedAt : JVal := .jundefined
  videoId : JVal := .jundefined
  video_id : JVal := .jundefined
  tags : JVal := .jundefined
  infos : JVal := .jundefined
  scan : JVal := .jundefined
  pois : JVal := .jundefined
  rotationTier : JVal := .jundefined
  tier : JVal := .jundefined
  retentionScore : JVal := .jundefined
  retention_score : JVal := .jundefined
  retentionGrade : JVal := .jundefined
  retention_grade : JVal := .jundefined
  retentionStars : JVal := .jundefined
  retention_stars : JVal := .jundefined
  retentionStrength : JVal := .jundefined
  retention_strength : JVal := .jundefined
  retentionIndicator : JVal := .jundefined
  retention_indicator : JVal := .jundefined
  retentionBreakdown : JVal := .jundefined
  retention_breakdown : JVal := .jundefined
deriving Inhabited

inductive RotationTier where
  | New | Deep | Rotation | Power | Heavy
deriving DecidableEq, Inhabited

inductive RetentionGrade where
  | S | A | B | C
deriving DecidableEq, Inhabited

def retentionGradeStr : RetentionGrade → String
  | .S => "S"
  | .A => "A"
  | .B => "B"
  | .C => "C"

/-- The nine named numeric sub-scores of a retention breakdown. -/
structure RetentionBreakdown where
  xmlLifetimePlaycount : ℚ
  historicalPlays : ℚ
  eventDiversity : ℚ
  bpmTransitionUtility : ℚ
  genreCoverageUniqueness : ℚ
  artistPresenceNetwork : ℚ
  eraRelevance : ℚ
  metadataCompleteness : ℚ
  freshnessCurve : ℚ
deriving DecidableEq, Inhabited

def retentionBreakdownKeys : List String :=
  ["xmlLifetimePlaycount", "historicalPlays", "eventDiversity", "bpmTransitionUtility",
   "genreCoverageUniqueness", "artistPresenceNetwork", "eraRelevance",
   "metadataCompleteness", "freshnessCurve"]

/-- Projection of a breakdown by key name (for stating its specification). -/
def breakdownField (b : RetentionBreakdown) (k : String) : Option ℚ :=
  if k = "xmlLifetimePlaycount" then some b.xmlLifetimePlaycount
  else if k = "historicalPlays" then some b.historicalPlays
  else if k = "eventDiversity" then some b.eventDiversity
  else if k = "bpmTransitionUtility" then some b.bpmTransitionUtility
  else if k = "genreCoverageUniqueness" then some b.genreCoverageUniqueness
  else if k = "artistPresenceNetwork" then some b.artistPresenceNetwork
  else if k = "eraRelevance" then some b.eraRelevance
  else if k = "metadataCompleteness" then some b.metadataCompleteness
  else if k = "freshnessCurve" then some b.freshnessCurve
  else none

/-- `clampToInt`: accept a finite number or a non-blank numeric string,
truncate to integer; `none` otherwise (never 0). -/
def clampToInt (v : JVal) : Option Int :=
  match v with
  | .jnum q => some (jsTrunc q)
  | .jstr s => if jsTrim s ≠ "" then (jsStringToNumber s).map jsTrunc else none
  | _ => none

/-- `parseEpochMs`: integers below `1e12` are epoch seconds and are rescaled
to milliseconds. -/
def parseEpochMs (v : JVal) : Option Int :=
  (clampToInt v).map (fun parsed => if parsed < 10 ^ 12 then parsed * 1000 else parsed)

/-- `asString`: trimmed string, or `String(number)` for a finite number,
else the empty string. -/
def asString (v : JVal) : String :=
  match v with
  | .jstr s => jsTrim s
  | .jnum q => jsNumToString q
  | _ => ""

/-- Collapse every maximal run of consecutive spaces to a single space
(the input has already had all whitespace mapped to `' '`). -/
def squeezeSpaces : List Char → List Char
  | [] => []
  | [c] => [c]
  | a :: b :: rest =>
    if a = ' ' ∧ b = ' ' then squeezeSpaces (b :: rest) else a :: squeezeSpaces (b :: rest)

/-- `cleanMusicText`: underscores to spaces, whitespace runs collapsed
(`replace(/\s+/g, ' ')`), trimmed. -/
def cleanMusicText (value : String) : String :=
  if value = "" then ""
  else
    let spaced := value.data.map (fun c => if c = '_' ∨ c.isWhitespace then ' ' else c)
    jsTrim (squeezeSpaces spaced).asString

/-- `split(p)` keeping empty segments, as JS `String.prototype.split` does. -/
def splitOnPred (p : Char → Bool) : List Char → List (List Char)
  | [] => [[]]
  | c :: rest =>
    match splitOnPred p rest with
    | [] => [[]]
    | g :: gs => if p c then [] :: g :: gs else (c :: g) :: gs

/-- `filePath.split(/[/\\]/).pop() ?? ''`. -/
def lastPathSeg (s : String) : String :=
  (((splitOnPred (fun c => c = '/' ∨ c = '\\') s.data).getLast?).getD []).asString

/-- `replace(/\.[a-z0-9]+$/i, '')`: drop a trailing dot-extension of
alphanumeric characters. -/
def stripExt (cs : List Char) : List Char :=
  let rev := cs.reverse
  let ext := rev.takeWhile (fun c => c.isDigit ∨ ('a' ≤ c ∧ c ≤ 'z') ∨ ('A' ≤ c ∧ c ≤ 'Z'))
  let rest := rev.dropWhile (fun c => c.isDigit ∨ ('a' ≤ c ∧ c ≤ 'z') ∨ ('A' ≤ c ∧ c ≤ 'Z'))
  match rest with
  | '.' :: before => if ext = [] then cs else before.reverse
  | _ => cs

/-- `deriveTitle`: part after the first `" - "` of the extension-stripped
filename, with fallbacks. -/
def deriveTitle (filePath : String) : String :=
  let name := lastPathSeg filePath
  let withoutExt := (stripExt name.data).asString
  let split := strSplitOnSub withoutExt " - "
  if split.length > 1 then
    strOr (cleanMusicText (String.intercalate " - " (split.drop 1)))
      (strOr (cleanMusicText withoutExt) "Untitled")
  else strOr (cleanMusicText withoutExt) "Untitled"

/-- `deriveArtist`: part before the first `" - "` of the extension-stripped
filename, else `"Unknown"`. -/
def deriveArtist (filePath : String) : String :=
  let name := lastPathSeg filePath
  let withoutExt := (stripExt name.data).asString
  if strIndexOf? withoutExt " - " ≠ none then
    strOr (cleanMusicText ((strSplitOnSub withoutExt " - ").headD "")) "Unknown"
  else "Unknown"

def normalizeRotationTier (value : JVal) : RotationTier :=
  match value with
  | .jstr s =>
    let normalized := strToLower (jsTrim s)
    if normalized = "new" then .New
    else if normalized = "rotation" then .Rotation
    else if normalized = "power" then .Power
    else if normalized = "heavy" then .Heavy
    else .Deep
  | _ => .Deep

def normalizeCanonicalTier (value : JVal) : Option CanonicalTier :=
  match value with
  | .jstr s =>
    let normalized := strToLower (jsTrim s)
    if normalized = "promo" then some .Promo
    else if normalized = "light" then some .Light
    else if normalized = "medium" then some .Medium
    else if normalized = "heavy" then some .Heavy
    else if normalized = "power" then some .Power
    else none
  | _ => none

def normalizeRetentionGrade (value : JVal) : RetentionGrade :=
  match value with
  | .jstr s =>
    let normalized := strToUpper (jsTrim s)
    if normalized = "S" then .S
    else if normalized = "A" then .A
    else if normalized = "B" then .B
    else .C
  | _ => .C

/-- `toRetentionBreakdown`: only a (truthy, non-array) object qualifies, and
every one of the nine keys must coerce to a finite number, else `none`. -/
def toRetentionBreakdown (value : JVal) : Option RetentionBreakdown :=
  match value with
  | .jobj fields =>
    match jsToNumber (jget (.jobj fields) "xmlLifetimePlaycount") with
    | none => none
    | some a =>
    match jsToNumber (jget (.jobj fields) "historicalPlays") with
    | none => none
    | some b =>
    match jsToNumber (jget (.jobj fields) "eventDiversity") with
    | none => none
    | some c =>
    match jsToNumber (jget (.jobj fields) "bpmTransitionUtility") with
    | none => none
    | some d =>
    match jsToNumber (jget (.jobj fields) "genreCoverageUniqueness") with
    | none => none
    | some e =>
    match jsToNumber (jget (.jobj fields) "artistPresenceNetwork") with
    | none => none
    | some f =>
    match jsToNumber (jget (.jobj fields) "eraRelevance") with
    | none => none
    | some g =>
    match jsToNumber (jget (.jobj fields) "metadataCompleteness") with
    | none => none
    | some h =>
    match jsToNumber (jget (.jobj fields) "freshnessCurve") with
    | none => none
    | some i => some ⟨a, b, c, d, e, f, g, h, i⟩
  | _ => none

/-- The normalized record.  The two derived media URLs (`thumbnailUrl`,
`videoUrl`) are independent per-item URL rewrites that no claim touches and
are not modelled. -/
structure VideoRecord where
  id : String
  videoId : Option String
  filePath : String
  absolutePath : Option String
  filename : String
  title : String
  artist : String
  album : String
  genre : String
  label : String
  bpm : String
  key : String
  comments : String
  year : Option Int
  /-- `number | null`; the inner `Option` is the JS-number model
  (`some none` = a stored non-finite number). -/
  durationSec : Option (Option ℚ)
  playcount : Int
  firstSeenMs : Option Int
  addedAt : Option String
  tags : Option JVal
  infos : Option JVal
  scan : Option JVal
  pois : List JVal
  rotationTier : RotationTier
  tier : Option CanonicalTier
  retentionScore : Int
  retentionGrade : RetentionGrade
  retentionStars : Int
  retentionStrength : Int
  retentionIndicator : String
  retentionBreakdown : Option RetentionBreakdown
  raw : RawItem
deriving Inhabited

/-- `item.tags && typeof item.tags === 'object' ? item.tags : undefined`:
a truthy value of object type, i.e. a plain object or an array. -/
def keepObject (v : JVal) : Option JVal :=
  match v with
  | .jobj fs => some (.jobj fs)
  | .jarr es => some (.jarr es)
  | _ => none

/-- `t?.k` where `t` is an optional object. -/
def optGet (t : Option JVal) (k : String) : JVal :=
  match t with
  | some v => jget v k
  | none => .jundefined

def getAssoc {α : Type} (m : List (String × α)) (k : String) : Option α :=
  match m with
  | [] => none
  | (k', v) :: rest => if k' = k then some v else getAssoc rest k

def setAssoc {α : Type} (m : List (String × α)) (k : String) (v : α) : List (String × α) :=
  match m with
  | [] => [(k, v)]
  | (k', v') :: rest => if k' = k then (k, v) :: rest else (k', v') :: setAssoc rest k v

/-- The disambiguated id: the base on the first occurrence, then
`` `${idBase}#${duplicate}` ``. -/
def mkId (idBase : String) (duplicate : ℕ) : String :=
  if duplicate = 0 then idBase else idBase ++ "#" ++ duplicate.repr

/-- The body of the `.map` callback of `parseVideoIndexRows` for one item,
threading the `ids` duplicate-count map (a JS `Map`). -/
def parseStep (ids : List (String × ℕ)) (idx : ℕ) (item : RawItem) :
    Option VideoRecord × List (String × ℕ) :=
  let rawPath := asString (jvalCoalesce item.filePath item.filepath)
  if rawPath = "" then (none, ids)
  else
    match (normalizeVideoPath rawPath).relativePath with
    | none => (none, ids)
    | some relPath =>
      -- `if (!normalized.relativePath) return null` also drops the empty string
      if relPath = "" then (none, ids)
      else
        let year := clampToInt item.year
        let durationSec : Option (Option ℚ) :=
          ocoal ((clampToInt item.duration_sec).map (fun v => some (v : ℚ)))
            (ocoal ((clampToInt item.durationSeconds).map (fun v => some (v : ℚ)))
              (match item.duration with
               | .jnum q => some (some q)
               | .jnumNF => some none
               | _ => none))
        let playcount := (ocoal (clampToInt item.playcount)
          (ocoal (clampToInt item.playCount) (clampToInt item.play_count))).getD 0
        let firstSeenMs := parseEpochMs
          (jvalCoalesce item.firstSeen (jvalCoalesce item.first_seen item.first_seen_ts))
        let tags := keepObject item.tags
        let infos := keepObject item.infos
        let scan := keepObject item.scan
        let retentionScore :=
          (clampToInt (jvalCoalesce item.retentionScore item.retention_score)).getD 0
        let retentionGrade :=
          normalizeRetentionGrade (jvalCoalesce item.retentionGrade item.retention_grade)
        let retentionStars :=
          (clampToInt (jvalCoalesce item.retentionStars item.retention_stars)).getD
            (max 1 (jsRound ((retentionScore : ℚ) / 20)))
        let retentionStrength :=
          (clampToInt (jvalCoalesce item.retentionStrength item.retention_strength)).getD
            (if 85 ≤ retentionScore then 4
             else if 70 ≤ retentionScore then 3
             else if 55 ≤ retentionScore then 2 else 1)
        let retentionIndicator :=
          strOr (asString (jvalCoalesce item.retentionIndicator item.retention_indicator))
            (charRepeat '*' (max 1 retentionStars).toNat ++
              charRepeat '-' (max 0 (5 - max 1 retentionStars)).toNat)
        let retentionBreakdown :=
          toRetentionBreakdown (jvalCoalesce item.retentionBreakdown item.retention_breakdown)
        let fallbackTitle := deriveTitle relPath
        let title := strOr (cleanMusicText (asString item.title)) fallbackTitle
        let artist := strOr (cleanMusicText (asString (jvalCoalesce item.artist item.author)))
          (deriveArtist relPath)
        let album := strOr (cleanMusicText (asString (jvalCoalesce item.album (optGet tags "album")))) "—"
        let genre := strOr (cleanMusicText (asString (jvalCoalesce item.genre (optGet tags "genre")))) "—"
        let label := strOr (cleanMusicText (asString (jvalCoalesce item.label (optGet tags "label")))) "—"
        let bpmRaw := asString (jvalCoalesce item.bpm (jvalCoalesce (optGet tags "bpm") (optGet scan "bpm")))
        let keyRaw := asString (jvalCoalesce item.key (jvalCoalesce (optGet tags "key") (optGet scan "key")))
        let comments := strOr (cleanMusicText (asString
          (jvalCoalesce item.comments (jvalCoalesce (optGet tags "comment") (optGet tags "comments"))))) "—"
        let idBase := strOr (asString (jvalCoalesce item.videoId item.video_id))
          (strOr relPath ("video-" ++ idx.repr))
        let duplicate := (getAssoc ids idBase).getD 0
        let ids' := setAssoc ids idBase (duplicate + 1)
        let videoId := let v := asString (jvalCoalesce item.videoId item.video_id)
          if v = "" then none else some v
        let inferredTier := tierFromPlaycount (some (playcount : ℚ))
        let normalizedTier := normalizeCanonicalTier item.tier
        let tier := ocoal inferredTier normalizedTier
        (some {
          id := mkId idBase duplicate
          videoId := videoId
          filePath := relPath
          absolutePath := (normalizeVideoPath rawPath).absolutePath
          filename := lastPathSeg relPath
          title := title
          artist := artist
          album := album
          genre := genre
          label := label
          bpm := strOr bpmRaw "—"
          key := strOr keyRaw "—"
          comments := comments
          year := year
          durationSec := durationSec
          playcount := playcount
          firstSeenMs := firstSeenMs
          addedAt := let a := asString item.addedAt
            if a = "" then none else some a
          tags := tags
          infos := infos
          scan := scan
          pois := match item.pois with
            | .jarr es => es
            | _ => []
          rotationTier := normalizeRotationTier item.rotationTier
          tier := tier
          retentionScore := retentionScore
          retentionGrade := retentionGrade
          retentionStars := max 1 (min 5 retentionStars)
          retentionStrength := max 1 (min 4 retentionStrength)
          retentionIndicator := retentionIndicator
          retentionBreakdown := retentionBreakdown
          raw := item }, ids')

/-- The `.map` + `.filter(Boolean)` of `parseVideoIndexRows`, with the
shared `ids` map threaded through in input order. -/
def parseRowsGo (ids : List (String × ℕ)) (idx : ℕ) : List RawItem → List VideoRecord
  | [] => []
  | item :: rest =>
    match parseStep ids idx item with
    | (some row, ids') => row :: parseRowsGo ids' (idx + 1) rest
    | (none, ids') => parseRowsGo ids' (idx + 1) rest

def parseVideoIndexRows (items : List RawItem) : List VideoRecord :=
  parseRowsGo [] 0 items

/-- `rowSearchText`: the record's searchable text. -/
def rowSearchText (row : VideoRecord) : String :=
  strToLower (String.intercalate " "
    [row.title, row.artist,
     (match row.year with
      | some y => if y = 0 then "" else y.repr
      | none => ""),
     row.filePath, row.album, row.genre, retentionGradeStr row.retentionGrade,
     (row.tier.map canonicalTierStr).getD ""])

/- ---------------------------------------------------------------------
src/pages/VideoLibrary.tsx: the query parser and the library filter's
text/year stage and decade pills.
--------------------------------------------------------------------- -/

/-- Characters kept by `normalizeSearchText`'s final character class. -/
def isLowerAlnum (c : Char) : Bool := c.isDigit ∨ ('a' ≤ c ∧ c ≤ 'z')

/-- Combining marks U+0300 – U+036F, stripped after NFD normalization. -/
def isCombiningMark (c : Char) : Bool := 0x300 ≤ c.toNat ∧ c.toNat ≤ 0x36f

/-- `normalizeSearchText`: lowercase, NFD + combining-mark strip, collapse
runs outside `[a-z0-9]` to single spaces, trim.  Modelled builtin: NFD
normalization is the identity (exact on strings without precomposed
characters; every claim input is ASCII). -/
def normalizeSearchText (value : String) : String :=
  let lowered := strToLower value
  let stripped := lowered.data.filter (fun c => ¬ isCombiningMark c)
  let spaced := stripped.map (fun c => if isLowerAlnum c then c else ' ')
  jsTrim (squeezeSpaces spaced).asString

/-- `tokenize`: split the normalized text on whitespace runs.  (The
normalized text has single interior spaces and no edge spaces, so dropping
empty segments coincides with the `/\s+/` split.) -/
def tokenize (value : String) : List String :=
  let normalized := normalizeSearchText value
  if normalized = "" then []
  else ((splitOnPred Char.isWhitespace normalized.data).filter (fun g => g ≠ [])).map List.asString

/-- `^\d{2,4}$`. -/
def isDigits24 (s : String) : Bool :=
  2 ≤ s.length ∧ s.length ≤ 4 ∧ s.data.all Char.isDigit

/-- `parseYearToken`: a 2–4 digit token; 2-digit values live in the 1900s. -/
def parseYearToken (value : String) : Option Int :=
  if isDigits24 value then
    let num : Int := decDigitsVal value.data
    if value.length = 2 then some (1900 + num) else some num
  else none

/-- A parsed year range.  The source names the second field `end`, a
reserved word in Lean; it is called `stop` here. -/
structure YearRange where
  start : Int
  stop : Int
deriving DecidableEq, Inhabited

/-- `parseYearRangeToken`: `^(\d{2,4})-(\d{2,4})$` (the split on `-` yields
exactly the two digit groups, since digit groups cannot contain `-`); a
2-digit second group after a 4-digit first group is lifted into the first
group's century; the result is normalized so `start <= end`. -/
def parseYearRangeToken (value : String) : Option YearRange :=
  match strSplitOnSub value "-" with
  | [a, b] =>
    if isDigits24 a ∧ isDigits24 b then
      match parseYearToken a with
      | none => none
      | some left =>
        match parseYearToken b with
        | none => none
        | some right0 =>
          let right := if a.length = 4 ∧ b.length = 2
            then left / 100 * 100 + (decDigitsVal b.data : Int)
            else right0
          some ⟨min left right, max left right⟩
    else none
  | _ => none

structure Query where
  textTokens : List String
  yearValues : List Int
  yearRanges : List YearRange
deriving DecidableEq, Inhabited

/-- Characters kept by the per-token `[^0-9a-z-]` strip of `parseSearch`. -/
def isQueryChar (c : Char) : Bool := c.isDigit ∨ ('a' ≤ c ∧ c ≤ 'z') ∨ c = '-'

/-- One classification step of `parseSearch`'s token loop, acting on the
accumulated `(textParts, yearValues, yearRanges)`. -/
def parseSearchStep (acc : List String × List Int × List YearRange) (token : String) :
    List String × List Int × List YearRange :=
  let cleaned := (token.data.filter isQueryChar).asString
  if cleaned = "" then acc
  else
    match parseYearRangeToken cleaned with
    | some r => (acc.1, acc.2.1, acc.2.2 ++ [r])
    | none =>
      match parseYearToken cleaned with
      | some y =>
        if cleaned.length = 4 then (acc.1, acc.2.1 ++ [y], acc.2.2)
        else (acc.1 ++ [cleaned], acc.2.1, acc.2.2)
      | none => (acc.1 ++ [cleaned], acc.2.1, acc.2.2)

/-- `parseSearch`: en/em dashes to `-`, lowercase, whitespace split with
blank tokens dropped, then per-token classification in order. -/
def parseSearch (query : String) : Query :=
  let normalizedQuery := (query.data.map (fun c => if c = '–' ∨ c = '—' then '-' else c)).asString
  let rawTokens := ((splitOnPred Char.isWhitespace (strToLower normalizedQuery).data).map
    (fun t => jsTrim t.asString)).filter (fun t => t ≠ "")
  let res := rawTokens.foldl parseSearchStep ([], [], [])
  ⟨tokenize (String.intercalate " " res.1), res.2.1, res.2.2⟩

inductive DecadePill where
  | d60s | d70s | d80s | d90s | d00s | d10s
deriving DecidableEq, Inhabited

/-- `matchesDecade`. -/
def matchesDecade (year : Option Int) (pill : DecadePill) : Bool :=
  match year with
  | none => false
  | some y =>
    match pill with
    | .d60s => decide (1960 ≤ y ∧ y ≤ 1969)
    | .d70s => decide (1970 ≤ y ∧ y ≤ 1979)
    | .d80s => decide (1980 ≤ y ∧ y ≤ 1989)
    | .d90s => decide (1990 ≤ y ∧ y ≤ 1999)
    | .d00s => decide (2000 ≤ y ∧ y ≤ 2009)
    | .d10s => decide (2010 ≤ y)

/-- The first `.filter` of `filteredVideos`: free-text prefix match, exact
year values, and year ranges. -/
def textYearStage (query : Query) (row : VideoRecord) : Bool :=
  let rowText := rowSearchText row
  let textOk : Bool :=
    if query.textTokens.length > 0 then
      let textTokens := tokenize rowText
      query.textTokens.all (fun token => textTokens.any (fun word => strStartsWith word token))
    else true
  let yearOk : Bool :=
    if query.yearValues.length > 0 then
      match row.year with
      | none => false
      | some y => query.yearValues.all (fun v => y = v)
    else true
  let rangeOk : Bool :=
    if query.yearRanges.length > 0 then
      match row.year with
      | none => false
      | some y => query.yearRanges.all (fun r => decide (r.start ≤ y ∧ y ≤ r.stop))
    else true
  textOk && yearOk && rangeOk

/- ---------------------------------------------------------------------
src/design/ringColors.ts (SetBuilder page): the weighted sampler and the
history weight aggregation.
--------------------------------------------------------------------- -/

/-- `clamp(value, min, max)`. -/
def clamp (value lo hi : ℚ) : ℚ := min hi (max lo value)

/-- The cursor walk of `weightedPick`'s selection loop: the first index at
which the cursor, decremented by successive weights, goes non-positive
(`none` if it never does; `selected` then keeps its initial value 0). -/
def findCross : List ℚ → ℚ → Option ℕ
  | [], _ => none
  | w :: rest, cursor =>
    if cursor - w ≤ 0 then some 0
    else (findCross rest (cursor - w)).map (fun i => i + 1)

/-- The per-candidate weight of one draw iteration.  `rand i` is the i-th
value of the ambient `Math.random()` stream. -/
def drawWeight (intensity : ℚ) (hw : String → Option ℚ) (rand : ℕ → ℚ) (rIdx : ℕ)
    (p : ℕ × VideoRecord) : ℚ :=
  let item := p.2
  let libraryPlays := max 0 (item.playcount : ℚ)
  let historyPlays := max 0 ((ocoal (hw item.filePath) (hw item.id)).getD 0)
  let combinedPlays := libraryPlays + historyPlays
  let novelty := 1 / (1 + combinedPlays)
  let retention := clamp ((item.retentionScore : ℚ) / 100) 0 1
  let retentionBias := 0.65 + retention * 1.1
  retentionBias * (1 + intensity * rand (rIdx + p.1) + novelty * (intensity / 2))

/-- The `while` loop of `weightedPick`.  `fuel` starts at the pool size:
every iteration removes exactly one element from `available`, so the loop
runs at most that many times and the fuel never cuts it short.  One
iteration consumes `available.length + 1` values of the random stream
(one per candidate weight, one for the cursor). -/
def weightedPickGo (intensity : ℚ) (hw : String → Option ℚ) (rand : ℕ → ℚ) (count : Int) :
    ℕ → List VideoRecord → List VideoRecord → ℕ → List VideoRecord
  | 0, _, picks, _ => picks
  | fuel + 1, available, picks, rIdx =>
    if available.length > 0 ∧ (picks.length : Int) < count then
      let weights := available.enum.map (drawWeight intensity hw rand rIdx)
      let total := weights.foldl (fun sum value => sum + value) 0
      let cursor := rand (rIdx + available.length) * total
      let selected := (findCross weights cursor).getD 0
      weightedPickGo intensity hw rand count fuel (available.eraseIdx selected)
        (picks ++ [available.getD selected default]) (rIdx + available.length + 1)
    else picks

/-- `weightedPick(items, count, intensity, historyWeights)`, with the
`Math.random()` stream passed in as `rand`. -/
def weightedPick (items : List VideoRecord) (count : Int) (intensity : ℚ)
    (hw : String → Option ℚ) (rand : ℕ → ℚ) : List VideoRecord :=
  weightedPickGo intensity hw rand count items.length items [] 0

/-- `Math.max` on JS numbers (`none` = non-finite).  Exact except that the
infinities are merged with NaN; the claims never exercise non-finite
history weights. -/
def jsMaxNum (a b : Option ℚ) : Option ℚ :=
  match a, b with
  | some x, some y => some (max x y)
  | _, _ => none

/-- The marker-relative second key the history-weights effect derives for a
`perSong` entry, when the (backslash-normalized, uppercased) key contains
`/VIDEO/`.  Modelled builtin: `toUpperCase` maps characters pointwise
(exact on ASCII, and in particular length-preserving, which the code's use
of the uppercased index into the original string assumes). -/
def historyDerivedKey (songKey : String) : Option String :=
  let normalized := replaceBackslashes songKey
  match strIndexOf? (strToUpper normalized) "/VIDEO/" with
  | some m => some (replaceBackslashes ("/VIDEO/" ++ strDrop normalized (m + 7)))
  | none => none

/-- The history-weights map built by the SetBuilder effect from the
`perSong` bucket: each entry records `max(existing ?? 0, plays)` under the
derived marker-relative key (when present) and then under the raw key. -/
def buildHistoryWeights (perSong : List (String × JVal)) : List (String × Option ℚ) :=
  perSong.foldl (fun weights kv =>
    let plays : Option ℚ :=
      match jget kv.2 "totalPlays" with
      | .jnum q => some q
      | .jnumNF => none
      | _ => some 0
    let w1 :=
      match historyDerivedKey kv.1 with
      | some rel => setAssoc weights rel (jsMaxNum ((getAssoc weights rel).getD (some 0)) plays)
      | none => weights
    setAssoc w1 kv.1 (jsMaxNum ((getAssoc w1 kv.1).getD (some 0)) plays)) []

/-- The keys `buildHistoryWeights` derives (as opposed to the raw
`perSong` keys themselves). -/
def historyDerivedKeys (perSong : List (String × JVal)) : List String :=
  perSong.filterMap (fun kv => historyDerivedKey kv.1)

/- ---------------------------------------------------------------------
Auxiliary definitions used only to state the claims, plus the concrete
inputs of witnesses and counterexamples.
--------------------------------------------------------------------- -/

/-- The lower edge of each decade pill's window. -/
def decadeLow : DecadePill → Int
  | .d60s => 1960
  | .d70s => 1970
  | .d80s => 1980
  | .d90s => 1990
  | .d00s => 2000
  | .d10s => 2010

/-- The id base `parseStep` assigns to a surviving item: explicit upstream
id, else the normalized relative path (never empty for a surviving item, so
the positional `video-${idx}` placeholder is unreachable). -/
def idBaseOf (item : RawItem) : String :=
  let rawPath := asString (jvalCoalesce item.filePath item.filepath)
  let relPath := ((normalizeVideoPath rawPath).relativePath).getD ""
  strOr (asString (jvalCoalesce item.videoId item.video_id)) relPath

def wOkPath : JVal := .jstr "/Users/x/VIDEO/x.mp4"

/-- Batch whose second and third ids collide with the literal first id
after suffixing: ids come out as `a#1`, `a`, `a#1`. -/
def cexDupItems : List RawItem :=
  [{ filePath := wOkPath, videoId := .jstr "a#1", retentionStars := .jnum 3, retentionStrength := .jnum 2 },
   { filePath := wOkPath, videoId := .jstr "a", retentionStars := .jnum 3, retentionStrength := .jnum 2 },
   { filePath := wOkPath, videoId := .jstr "a", retentionStars := .jnum 3, retentionStrength := .jnum 2 }]

/-- Batch with duplicate `#`-free bases: ids come out as `a`, `a#1`, `b`. -/
def wDupItems : List RawItem :=
  [{ filePath := wOkPath, videoId := .jstr "a", retentionStars := .jnum 3, retentionStrength := .jnum 2 },
   { filePath := wOkPath, videoId := .jstr "a", retentionStars := .jnum 3, retentionStrength := .jnum 2 },
   { filePath := wOkPath, videoId := .jstr "b", retentionStars := .jnum 3, retentionStrength := .jnum 2 }]

/-- An item whose VIDEO segment only ever appears with backslash separators. -/
def cexBackslashItem : RawItem := { filePath := .jstr "C:\\Media\\VIDEO\\clip.mp4" }

/-- An item whose playcount-derived tier (Medium) disagrees with its
upstream tier string (`promo`). -/
def wTierItems : List RawItem :=
  [{ filePath := wOkPath, playcount := .jnum 12, tier := .jstr "promo", retentionStars := .jnum 3, retentionStrength := .jnum 2 }]

def wTierRow : VideoRecord := (parseVideoIndexRows wTierItems).headD default

def wPool : List VideoRecord :=
  [{ (default : VideoRecord) with id := "r1", filePath := "VIDEO/a.mp4" },
   { (default : VideoRecord) with id := "r2", filePath := "VIDEO/b.mp4", playcount := 5, retentionScore := 80 }]

def wBreakdownFull : List (String × JVal) :=
  retentionBreakdownKeys.map (fun k => (k, JVal.jnum 1))

def wBreakdownMissing : List (String × JVal) :=
  (retentionBreakdownKeys.drop 1).map (fun k => (k, JVal.jnum 1))

def wPerSong : List (String × JVal) :=
  [("C:\\x\\VIDEO\\a.mp4", .jobj [("totalPlays", .jnum 3)])]

def wQuery : Query := ⟨["que"], [1980], [⟨1975, 1983⟩]⟩

def wQueryRow : VideoRecord :=
  { (default : VideoRecord) with title := "Bohemian Rhapsody", artist := "Queen", year := some 1980, filePath := "VIDEO/q.mp4" }

/- ---------------------------------------------------------------------
Helper lemmas.
--------------------------------------------------------------------- -/

theorem digitChar_decode : ∀ k : ℕ, k < 10 → (Nat.digitChar k).toNat - '0'.toNat = k := by
  decide

theorem toDigitsCore_decode :
    ∀ (fuel n : ℕ) (ds : List Char), n < 10 ^ fuel →
      (Nat.toDigitsCore 10 fuel n ds).foldl (fun a c => 10 * a + (c.toNat - '0'.toNat)) 0 =
        ds.foldl (fun a c => 10 * a + (c.toNat - '0'.toNat)) n := by
  intro fuel
  induction fuel with
  | zero =>
    intro n ds h
    interval_cases n
    rfl
  | succ f ih =>
    intro n ds h
    by_cases h0 : n / 10 = 0
    · have hn : n < 10 := by omega
      simp only [Nat.toDigitsCore, h0, if_pos]
      simp only [List.foldl_cons]
      rw [digitChar_decode (n % 10) (Nat.mod_lt n (by norm_num))]
      have : n % 10 = n := Nat.mod_eq_of_lt hn
      rw [this]
      norm_num
    · have hdiv : n / 10 < 10 ^ f := by
        rw [Nat.div_lt_iff_lt_mul (by norm_num)]
        calc n < 10 ^ (f + 1) := h
        _ = 10 ^ f * 10 := by ring
      simp only [Nat.toDigitsCore, h0, if_neg, ite_false]
      rw [ih (n / 10) (Nat.digitChar (n % 10) :: ds) hdiv]
      simp only [List.foldl_cons]
      rw [digitChar_decode (n % 10) (Nat.mod_lt n (by norm_num))]
      rw [Nat.div_add_mod n 10]

theorem natRepr_decode (n : ℕ) :
    (Nat.toDigits 10 n).foldl (fun a c => 10 * a + (c.toNat - '0'.toNat)) 0 = n := by
  have h : n < 10 ^ (n + 1) :=
    lt_of_lt_of_le (Nat.lt_pow_self (by norm_num) n)
      (Nat.pow_le_pow_right (by norm_num) (Nat.le_succ n))
  simpa using toDigitsCore_decode (n + 1) n [] h

theorem natRepr_inj {m n : ℕ} (h : Nat.repr m = Nat.repr n) : m = n := by
  have hd : Nat.toDigits 10 m = Nat.toDigits 10 n := congrArg String.data h
  calc m = (Nat.toDigits 10 m).foldl (fun a c => 10 * a + (c.toNat - '0'.toNat)) 0 :=
        (natRepr_decode m).symm
  _ = (Nat.toDigits 10 n).foldl (fun a c => 10 * a + (c.toNat - '0'.toNat)) 0 := by rw [hd]
  _ = n := natRepr_decode n

theorem append_hash_inj :
    ∀ (a1 a2 : List Char) {t1 t2 : List Char}, '#' ∉ a1 → '#' ∉ a2 →
      a1 ++ '#' :: t1 = a2 ++ '#' :: t2 → a1 = a2 ∧ t1 = t2 := by
  intro a1
  induction a1 with
  | nil =>
    intro a2 t1 t2 _ h2 h
    cases a2 with
    | nil => simpa using h
    | cons c rest =>
      simp only [List.nil_append, List.cons_append, List.cons.injEq] at h
      exfalso
      apply h2
      rw [h.1]
      exact List.mem_cons_self _ _
  | cons c rest ih =>
    intro a2 t1 t2 h1 h2 h
    cases a2 with
    | nil =>
      simp only [List.nil_append, List.cons_append, List.cons.injEq] at h
      exfalso
      apply h1
      rw [← h.1]
      exact List.mem_cons_self _ _
    | cons c' rest' =>
      simp only [List.cons_append, List.cons.injEq] at h
      obtain ⟨hc, hrest⟩ := h
      have := ih rest' (fun hm => h1 (List.mem_cons_of_mem c hm))
        (fun hm => h2 (List.mem_cons_of_mem c' hm)) hrest
      exact ⟨by rw [hc, this.1], this.2⟩

theorem mkId_inj {b1 b2 : String} {k1 k2 : ℕ} (h1 : '#' ∉ b1.data) (h2 : '#' ∉ b2.data)
    (h : mkId b1 k1 = mkId b2 k2) : b1 = b2 ∧ k1 = k2 := by
  have hdata : ∀ (b : String) (k : ℕ), (b ++ "#" ++ k.repr).data = b.data ++ '#' :: (Nat.repr k).data := by
    intro b k
    rw [String.data_append, String.data_append, List.append_assoc]
    rfl
  unfold mkId at h
  by_cases e1 : k1 = 0 <;> by_cases e2 : k2 = 0
  · rw [if_pos e1, if_pos e2] at h
    exact ⟨h, e1.trans e2.symm⟩
  · rw [if_pos e1, if_neg e2] at h
    exfalso
    apply h1
    rw [h, hdata]
    exact List.mem_append_right _ (List.mem_cons_self _ _)
  · rw [if_neg e1, if_pos e2] at h
    exfalso
    apply h2
    rw [← h, hdata]
    exact List.mem_append_right _ (List.mem_cons_self _ _)
  · rw [if_neg e1, if_neg e2] at h
    have hd := congrArg String.data h
    rw [hdata, hdata] at hd
    obtain ⟨hb, hr⟩ := append_hash_inj _ _ h1 h2 hd
    refine ⟨String.ext hb, natRepr_inj (String.ext hr)⟩

theorem getAssoc_setAssoc_self {α : Type} (m : List (String × α)) (k : String) (v : α) :
    getAssoc (setAssoc m k v) k = some v := by
  induction m with
  | nil => simp [setAssoc, getAssoc]
  | cons kv rest ih =>
    by_cases hk : kv.1 = k
    · simp [setAssoc, hk, getAssoc]
    · simp [setAssoc, hk, getAssoc, ih]

theorem getAssoc_setAssoc_ne {α : Type} (m : List (String × α)) (k k' : String) (v : α)
    (h : k' ≠ k) : getAssoc (setAssoc m k v) k' = getAssoc m k' := by
  have h' : k ≠ k' := fun e => h e.symm
  induction m with
  | nil => simp [setAssoc, getAssoc, h']
  | cons kv rest ih =>
    by_cases hk : kv.1 = k
    · simp [setAssoc, hk, getAssoc, h']
    · simp [setAssoc, hk, getAssoc, ih]

theorem parseStep_none_ids {ids : List (String × ℕ)} {idx : ℕ} {item : RawItem}
    {ids' : List (String × ℕ)} (h : parseStep ids idx item = (none, ids')) : ids' = ids := by
  simp only [parseStep] at h
  split at h
  · exact (Prod.mk.injEq _ _ _ _ ▸ h).2.symm
  · split at h
    · exact (Prod.mk.injEq _ _ _ _ ▸ h).2.symm
    · split at h
      · exact (Prod.mk.injEq _ _ _ _ ▸ h).2.symm
      · exact absurd (Prod.mk.injEq _ _ _ _ ▸ h).1 (by simp)

theorem parseStep_some_spec {ids : List (String × ℕ)} {idx : ℕ} {item : RawItem}
    {row : VideoRecord} {ids' : List (String × ℕ)}
    (h : parseStep ids idx item = (some row, ids')) :
    row.raw = item ∧
    (∃ d, row.id = mkId (idBaseOf item) d ∧ d = (getAssoc ids (idBaseOf item)).getD 0 ∧
      ids' = setAssoc ids (idBaseOf item) (d + 1)) ∧
    row.tier = ocoal (tierFromPlaycount (some (row.playcount : ℚ)))
      (normalizeCanonicalTier item.tier) ∧
    row.retentionBreakdown =
      toRetentionBreakdown (jvalCoalesce item.retentionBreakdown item.retention_breakdown) ∧
    asString (jvalCoalesce item.filePath item.filepath) ≠ "" ∧
    (normalizeVideoPath (asString (jvalCoalesce item.filePath item.filepath))).relativePath
      = some row.filePath ∧
    row.filePath ≠ "" := by
  simp only [parseStep] at h
  split at h
  · exact absurd (Prod.mk.injEq _ _ _ _ ▸ h).1 (by simp)
  · rename_i hraw
    split at h
    · exact absurd (Prod.mk.injEq _ _ _ _ ▸ h).1 (by simp)
    · rename_i relPath hrel
      split at h
      · exact absurd (Prod.mk.injEq _ _ _ _ ▸ h).1 (by simp)
      · rename_i hrelne
        rw [Prod.mk.injEq] at h
        obtain ⟨h1, h2⟩ := h
        rw [Option.some.injEq] at h1
        subst h1
        have hbase : idBaseOf item =
            strOr (asString (jvalCoalesce item.videoId item.video_id))
              (strOr relPath ("video-" ++ idx.repr)) := by
          simp only [idBaseOf]
          rw [hrel]
          simp only [Option.getD_some]
          unfold strOr
          rw [if_neg hrelne]
        refine ⟨rfl, ⟨_, ?_, rfl, ?_⟩, rfl, rfl, hraw, ?_, ?_⟩
        · rw [hbase]
        · rw [hbase, ← h2]
        · exact hrel
        · exact hrelne

theorem parseRowsGo_forall {P : VideoRecord → Prop}
    (hstep : ∀ ids idx item row ids', parseStep ids idx item = (some row, ids') → P row) :
    ∀ (items : List RawItem) (ids : List (String × ℕ)) (idx : ℕ) (row : VideoRecord),
      row ∈ parseRowsGo ids idx items → P row := by
  intro items
  induction items with
  | nil =>
    intro ids idx row h
    simp [parseRowsGo] at h
  | cons item rest ih =>
    intro ids idx row h
    rcases hp : parseStep ids idx item with ⟨o, ids2⟩
    simp only [parseRowsGo, hp] at h
    cases o with
    | some r =>
      rcases List.mem_cons.mp h with rfl | hm
      · exact hstep _ _ _ _ _ hp
      · exact ih ids2 (idx + 1) row hm
    | none =>
      exact ih ids2 (idx + 1) row h

theorem parseRowsGo_ids_nodup :
    ∀ (items : List RawItem) (ids : List (String × ℕ)) (idx : ℕ) (assigned : List String),
      (∀ item ∈ items, '#' ∉ (idBaseOf item).data) →
      (∀ a ∈ assigned, ∃ b k c, '#' ∉ b.data ∧ a = mkId b k ∧ getAssoc ids b = some c ∧ k < c) →
      assigned.Nodup →
      (assigned ++ (parseRowsGo ids idx items).map (fun r => r.id)).Nodup := by
  intro items
  induction items with
  | nil =>
    intro ids idx assigned _ _ hnd
    simpa [parseRowsGo] using hnd
  | cons item rest ih =>
    intro ids idx assigned hbase hinv hnd
    rcases hp : parseStep ids idx item with ⟨o, ids2⟩
    cases o with
    | none =>
      have hids : ids2 = ids := parseStep_none_ids hp
      subst hids
      simp only [parseRowsGo, hp]
      exact ih _ (idx + 1) assigned (fun it hm => hbase it (List.mem_cons_of_mem _ hm)) hinv hnd
    | some row =>
      obtain ⟨-, ⟨d, hid, hd, hids'⟩, -⟩ := parseStep_some_spec hp
      have hbitem : '#' ∉ (idBaseOf item).data := hbase item (List.mem_cons_self _ _)
      -- the freshly assigned id is new
      have hnotmem : row.id ∉ assigned := by
        intro hmem
        obtain ⟨b, k, c, hbfree, hbk, hbc, hkc⟩ := hinv _ hmem
        obtain ⟨hbeq, hkeq⟩ := mkId_inj hbfree hbitem (hbk ▸ hid)
        rw [hbeq] at hbc
        rw [hbc] at hd
        simp only [Option.getD_some] at hd
        omega
      have hinv' : ∀ a ∈ assigned ++ [row.id], ∃ b k c, '#' ∉ b.data ∧ a = mkId b k ∧
          getAssoc ids2 b = some c ∧ k < c := by
        intro a hmem
        rcases List.mem_append.mp hmem with hmem | hmem
        · obtain ⟨b, k, c, hbfree, hbk, hbc, hkc⟩ := hinv _ hmem
          by_cases hbb : b = idBaseOf item
          · refine ⟨b, k, d + 1, hbfree, hbk, ?_, ?_⟩
            · rw [hids', hbb, getAssoc_setAssoc_self]
            · rw [hbb] at hbc
              rw [hbc] at hd
              simp only [Option.getD_some] at hd
              omega
          · exact ⟨b, k, c, hbfree, hbk, by rw [hids', getAssoc_setAssoc_ne _ _ _ _ hbb]; exact hbc, hkc⟩
        · rw [List.mem_singleton.mp hmem]
          exact ⟨idBaseOf item, d, d + 1, hbitem, hid, by rw [hids', getAssoc_setAssoc_self], Nat.lt_succ_self d⟩
      have hnd' : (assigned ++ [row.id]).Nodup := by
        simp [List.nodup_append, hnd, hnotmem]
      have := ih ids2 (idx + 1) (assigned ++ [row.id])
        (fun it hm => hbase it (List.mem_cons_of_mem _ hm)) hinv' hnd'
      simpa [parseRowsGo, hp, List.append_assoc] using this

theorem tierFromPlaycount_finite_ne_none (q : ℚ) : tierFromPlaycount (some q) ≠ none := by
  intro h
  simp only [tierFromPlaycount] at h
  split_ifs at h

/-- C1: `tierFromPlaycount` returns `null` for non-finite input and, for a
finite playcount, classifies by inclusive upper bounds — ≤1 Promo, ≤7 Light,
≤15 Medium, ≤29 Heavy, else Power; the eight boundary inputs 1, 2, 7, 8, 15,
16, 29, 30 map to Promo, Light, Light, Medium, Medium, Heavy, Heavy, Power;
and the function is deterministic (two calls on the same input agree). -/
theorem C1_tier_classifier :
    tierFromPlaycount none = none ∧
    (∀ q : ℚ, q ≤ 1 → tierFromPlaycount (some q) = some .Promo) ∧
    (∀ q : ℚ, 1 < q → q ≤ 7 → tierFromPlaycount (some q) = some .Light) ∧
    (∀ q : ℚ, 7 < q → q ≤ 15 → tierFromPlaycount (some q) = some .Medium) ∧
    (∀ q : ℚ, 15 < q → q ≤ 29 → tierFromPlaycount (some q) = some .Heavy) ∧
    (∀ q : ℚ, 29 < q → tierFromPlaycount (some q) = some .Power) ∧
    ([tierFromPlaycount (some 1), tierFromPlaycount (some 2), tierFromPlaycount (some 7),
      tierFromPlaycount (some 8), tierFromPlaycount (some 15), tierFromPlaycount (some 16),
      tierFromPlaycount (some 29), tierFromPlaycount (some 30)] =
     [some .Promo, some .Light, some .Light, some .Medium, some .Medium, some .Heavy,
      some .Heavy, some .Power]) ∧
    (∀ n : Option ℚ, tierFromPlaycount n = tierFromPlaycount n) := by
  refine ⟨rfl, ?_, ?_, ?_, ?_, ?_, by decide, fun n => rfl⟩
  · intro q h
    simp only [tierFromPlaycount]
    rw [if_pos h]
  · intro q h1 h2
    simp only [tierFromPlaycount]
    rw [if_neg (by linarith), if_pos h2]
  · intro q h1 h2
    simp only [tierFromPlaycount]
    rw [if_neg (by linarith), if_neg (by linarith), if_pos h2]
  · intro q h1 h2
    simp only [tierFromPlaycount]
    rw [if_neg (by linarith), if_neg (by linarith), if_neg (by linarith), if_pos h2]
  · intro q h1
    simp only [tierFromPlaycount]
    rw [if_neg (by linarith), if_neg (by linarith), if_neg (by linarith), if_neg (by linarith)]

/-- C1 witness: the Light clause applied at the concrete playcount 5. -/
theorem C1_tier_classifier_witness :
    ((1 : ℚ) < 5 ∧ (5 : ℚ) ≤ 7) ∧ tierFromPlaycount (some 5) = some .Light :=
  ⟨⟨by norm_num, by norm_num⟩, C1_tier_classifier.2.2.1 5 (by norm_num) (by norm_num)⟩

/-- C2: every record produced by `parseVideoIndexRows` has
`tier = tierFromPlaycount(playcount) ?? normalizeCanonicalTier(item.tier)`,
and since the resolved playcount is always a finite number the derivation is
never null, so the tier always equals the playcount-derived tier (the
upstream fallback is reachable only when the derivation were null); and an
upstream tier string that is not one of the five canonical values
(case-insensitively, after trimming) normalizes to `null`, never to a
default tier. -/
theorem C2_tier_derivation :
    (∀ items row, row ∈ parseVideoIndexRows items →
      row.tier = ocoal (tierFromPlaycount (some (row.playcount : ℚ)))
          (normalizeCanonicalTier row.raw.tier) ∧
      row.tier = tierFromPlaycount (some (row.playcount : ℚ))) ∧
    (∀ s : String,
      strToLower (jsTrim s) ∉ ["promo", "light", "medium", "heavy", "power"] →
      normalizeCanonicalTier (.jstr s) = none) := by
  constructor
  · intro items row hrow
    have h := parseRowsGo_forall (P := fun row => row.tier =
        ocoal (tierFromPlaycount (some (row.playcount : ℚ))) (normalizeCanonicalTier row.raw.tier))
      (fun ids idx item r ids' hp => by
        obtain ⟨hraw, -, htier, -⟩ := parseStep_some_spec hp
        rw [htier, hraw]) items [] 0 row hrow
    refine ⟨h, ?_⟩
    rcases htf : tierFromPlaycount (some (row.playcount : ℚ)) with _ | t
    · exact absurd htf (tierFromPlaycount_finite_ne_none _)
    · rw [h, htf]
      rfl
  · intro s hs
    simp only [normalizeCanonicalTier]
    split_ifs with h1 h2 h3 h4 h5
    · exact absurd (by rw [h1]; simp) hs
    · exact absurd (by rw [h2]; simp) hs
    · exact absurd (by rw [h3]; simp) hs
    · exact absurd (by rw [h4]; simp) hs
    · exact absurd (by rw [h5]; simp) hs
    · rfl

/-- C2 witness: an item with playcount 12 and upstream tier string `promo`
comes out with the derived tier Medium, and the non-canonical string
`Banger` normalizes to `null`. -/
theorem C2_tier_derivation_witness :
    wTierRow ∈ parseVideoIndexRows wTierItems ∧
    wTierRow.tier = tierFromPlaycount (some (wTierRow.playcount : ℚ)) ∧
    wTierRow.tier = some .Medium ∧
    normalizeCanonicalTier (.jstr "Banger") = none := by
  have hmem : wTierRow ∈ parseVideoIndexRows wTierItems := by
    rw [show parseVideoIndexRows wTierItems = [wTierRow] from rfl]
    exact List.mem_singleton.mpr rfl
  exact ⟨hmem, (C2_tier_derivation.1 wTierItems wTierRow hmem).2, by rfl,
    C2_tier_derivation.2 "Banger" (by decide)⟩

/-- C3 counterexample: the batch `cexDupItems` — explicit upstream ids
`a#1`, `a`, `a` — produces the ids `a#1`, `a`, `a#1`: the suffixed
disambiguation of the third item collides with the literal first id, so the
ids of one normalization pass are NOT always pairwise distinct. -/
theorem C3_counterexample :
    (parseVideoIndexRows cexDupItems).map (fun r => r.id) = ["a#1", "a", "a#1"] ∧
    ¬ ((parseVideoIndexRows cexDupItems).map (fun r => r.id)).Nodup := by
  have h : (parseVideoIndexRows cexDupItems).map (fun r => r.id) = ["a#1", "a", "a#1"] := by rfl
  refine ⟨h, ?_⟩
  rw [h]
  decide

/-- C3 amended: in one normalization pass a collision with a previously
assigned id base receives a numeric `#`-suffix disambiguator, and the
resulting ids are pairwise distinct provided no assigned id base itself
contains the character `#` (a base that already looks like a suffixed id
defeats the scheme, as the counterexample shows). -/
theorem C3_amended_unique_ids (items : List RawItem)
    (hbase : ∀ item ∈ items, '#' ∉ (idBaseOf item).data) :
    ((parseVideoIndexRows items).map (fun r => r.id)).Nodup := by
  have := parseRowsGo_ids_nodup items [] 0 [] hbase (by simp) List.nodup_nil
  simpa [parseVideoIndexRows] using this

/-- C3 amended witness: the batch with `#`-free bases `a`, `a`, `b` gets the
pairwise-distinct ids `a`, `a#1`, `b`. -/
theorem C3_amended_unique_ids_witness :
    (∀ item ∈ wDupItems, '#' ∉ (idBaseOf item).data) ∧
    ((parseVideoIndexRows wDupItems).map (fun r => r.id)).Nodup ∧
    (parseVideoIndexRows wDupItems).map (fun r => r.id) = ["a", "a#1", "b"] :=
  ⟨by decide, C3_amended_unique_ids wDupItems (by decide), by rfl⟩

/-- C4 counterexample: the `10s` decade pill passes year 2025, which lies
outside the fixed 10-year band 2010–2019, so decade-pill membership is not
always a fixed 10-year band. -/
theorem C4_counterexample :
    matchesDecade (some 2025) .d10s = true ∧ ¬ ((2025 : Int) ≤ 2019) := by decide

/-- C4 amended: each decade pill from `60s` to `00s` passes exactly the
years of its fixed 10-year band (e.g. `80s` passes exactly 1980–1989
inclusive) and a null year fails every pill, but the `10s` pill is
open-ended: it passes exactly the years ≥ 2010, with no upper bound. -/
theorem C4_amended_decade_pills :
    (∀ (y : Int) (pill : DecadePill),
      matchesDecade (some y) pill = true ↔
        (decadeLow pill ≤ y ∧ (pill ≠ .d10s → y ≤ decadeLow pill + 9))) ∧
    (∀ y : Int, matchesDecade (some y) .d80s = true ↔ (1980 ≤ y ∧ y ≤ 1989)) ∧
    (∀ pill, matchesDecade none pill = false) := by
  refine ⟨?_, ?_, fun pill => rfl⟩
  · intro y pill
    cases pill <;> simp [matchesDecade, decadeLow]
  · intro y
    simp [matchesDecade]

/-- C4 amended witness: year 1985 passes the `80s` pill. -/
theorem C4_amended_decade_pills_witness :
    matchesDecade (some 1985) .d80s = true :=
  (C4_amended_decade_pills.2.1 1985).mpr (by norm_num)

theorem parseYearRangeToken_sorted {token : String} {r : YearRange}
    (h : parseYearRangeToken token = some r) : r.start ≤ r.stop := by
  unfold parseYearRangeToken at h
  split at h
  · split at h
    · split at h
      · exact absurd h (by simp)
      · split at h
        · exact absurd h (by simp)
        · rw [Option.some.injEq] at h
          rw [← h]
          exact min_le_max
    · exact absurd h (by simp)
  · exact absurd h (by simp)

theorem parseSearchStep_ranges_sorted
    (acc : List String × List Int × List YearRange) (token : String)
    (hacc : ∀ r ∈ acc.2.2, r.start ≤ r.stop) :
    ∀ r ∈ (parseSearchStep acc token).2.2, r.start ≤ r.stop := by
  intro r hm
  simp only [parseSearchStep] at hm
  split at hm
  · exact hacc r hm
  · split at hm
    · rename_i r' hr'
      rcases List.mem_append.mp hm with hm' | hm'
      · exact hacc r hm'
      · rw [List.mem_singleton.mp hm']
        exact parseYearRangeToken_sorted hr'
    · split at hm
      · split at hm
        · exact hacc r hm
        · exact hacc r hm
      · exact hacc r hm

theorem parseSearch_fold_ranges_sorted :
    ∀ (tokens : List String) (acc : List String × List Int × List YearRange),
      (∀ r ∈ acc.2.2, r.start ≤ r.stop) →
      ∀ r ∈ (tokens.foldl parseSearchStep acc).2.2, r.start ≤ r.stop := by
  intro tokens
  induction tokens with
  | nil => intro acc hacc; exact hacc
  | cons t rest ih =>
    intro acc hacc
    exact ih (parseSearchStep acc t) (parseSearchStep_ranges_sorted acc t hacc)

/-- C5: `parseSearch` classifies each whitespace-separated,
punctuation-stripped token in order — year-range pattern first, then bare
4-digit year, else free text.  Every produced year range is normalized so
`start ≤ end` (both for the token parser and for every range in any parsed
query); `parseSearch "queen 1980"` yields textTokens `["queen"]` and
yearValues `[1980]`; `parseSearch "75-83"` yields exactly the range
1975–1983; `parseSearch "bohemian rhapsody"` yields textTokens
`["bohemian", "rhapsody"]` and no years; and the 2-digit second part of
`1975-83` is lifted into the first part's century, yielding 1975–1983. -/
theorem C5_parseSearch_spec :
    (∀ token r, parseYearRangeToken token = some r → r.start ≤ r.stop) ∧
    (∀ query r, r ∈ (parseSearch query).yearRanges → r.start ≤ r.stop) ∧
    parseSearch "queen 1980" = ⟨["queen"], [1980], []⟩ ∧
    parseSearch "75-83" = ⟨[], [], [⟨1975, 1983⟩]⟩ ∧
    parseSearch "bohemian rhapsody" = ⟨["bohemian", "rhapsody"], [], []⟩ ∧
    parseSearch "1975-83" = ⟨[], [], [⟨1975, 1983⟩]⟩ := by
  refine ⟨fun token r h => parseYearRangeToken_sorted h, ?_, by decide, by decide, by decide, by decide⟩
  intro query r hm
  simp only [parseSearch] at hm
  exact parseSearch_fold_ranges_sorted _ ([], [], []) (by simp) r hm

/-- C5 witness: the range-normalization clause applied at the concrete
token `75-83`. -/
theorem C5_parseSearch_spec_witness :
    parseYearRangeToken "75-83" = some ⟨1975, 1983⟩ ∧ (1975 : Int) ≤ 1983 :=
  ⟨by decide, C5_parseSearch_spec.1 "75-83" ⟨1975, 1983⟩ (by decide)⟩

/-- C6: the library filter's text/year stage passes a record exactly when
every query text token is a prefix of at least one word of the record's
searchable text, the record's year equals every exact year value of the
query, and the year falls inclusively within every year range (ranges are
ANDed); a record with a null year fails whenever the query carries any year
value or range. -/
theorem C6_text_year_stage :
    (∀ (query : Query) (row : VideoRecord),
      textYearStage query row = true ↔
        ((∀ token ∈ query.textTokens, ∃ word ∈ tokenize (rowSearchText row),
            strStartsWith word token = true) ∧
         (∀ y ∈ query.yearValues, row.year = some y) ∧
         (∀ r ∈ query.yearRanges, ∃ yr, row.year = some yr ∧ r.start ≤ yr ∧ yr ≤ r.stop))) ∧
    (∀ (query : Query) (row : VideoRecord), row.year = none →
      query.yearValues ≠ [] ∨ query.yearRanges ≠ [] → textYearStage query row = false) := by
  have hmain : ∀ (query : Query) (row : VideoRecord),
      textYearStage query row = true ↔
        ((∀ token ∈ query.textTokens, ∃ word ∈ tokenize (rowSearchText row),
            strStartsWith word token = true) ∧
         (∀ y ∈ query.yearValues, row.year = some y) ∧
         (∀ r ∈ query.yearRanges, ∃ yr, row.year = some yr ∧ r.start ≤ yr ∧ yr ≤ r.stop)) := by
    intro query row
    rcases query with ⟨tt, yv, yr⟩
    simp only [textYearStage, Bool.and_eq_true]
    constructor
    · rintro ⟨⟨htext, hyear⟩, hrange⟩
      refine ⟨?_, ?_, ?_⟩
      · intro token htok
        have htt : tt.length > 0 := List.length_pos.mpr (List.ne_nil_of_mem htok)
        rw [if_pos htt] at htext
        have := (List.all_eq_true.mp htext) token htok
        obtain ⟨word, hw, hsw⟩ := List.any_eq_true.mp this
        exact ⟨word, hw, hsw⟩
      · intro y hy
        have hyv : yv.length > 0 := List.length_pos.mpr (List.ne_nil_of_mem hy)
        rw [if_pos hyv] at hyear
        rcases hrow : row.year with _ | y'
        · rw [hrow] at hyear
          exact absurd hyear (by simp)
        · rw [hrow] at hyear
          have := (List.all_eq_true.mp hyear) y hy
          simpa using congrArg some (of_decide_eq_true this)
      · intro r hr
        have hyr : yr.length > 0 := List.length_pos.mpr (List.ne_nil_of_mem hr)
        rw [if_pos hyr] at hrange
        rcases hrow : row.year with _ | y'
        · rw [hrow] at hrange
          exact absurd hrange (by simp)
        · rw [hrow] at hrange
          have := of_decide_eq_true ((List.all_eq_true.mp hrange) r hr)
          exact ⟨y', rfl, this.1, this.2⟩
    · rintro ⟨htext, hyear, hrange⟩
      refine ⟨⟨?_, ?_⟩, ?_⟩
      · split
        · rename_i htt
          rw [List.all_eq_true]
          intro token htok
          obtain ⟨word, hw, hsw⟩ := htext token htok
          exact List.any_eq_true.mpr ⟨word, hw, hsw⟩
        · rfl
      · split
        · rename_i hyv
          have hne : yv ≠ [] := by
            intro h
            rw [h] at hyv
            simp at hyv
          obtain ⟨y0, hy0⟩ := List.exists_mem_of_ne_nil yv hne
          rcases hrow : row.year with _ | y'
          · rw [hrow] at hyear
            exact absurd (hyear y0 hy0) (by simp)
          · have hy' := hyear
            rw [List.all_eq_true]
            intro y hy
            have := hyear y hy
            rw [hrow] at this
            simp only [Option.some.injEq] at this
            exact decide_eq_true this
        · rfl
      · split
        · rename_i hyr
          have hne : yr ≠ [] := by
            intro h
            rw [h] at hyr
            simp at hyr
          obtain ⟨r0, hr0⟩ := List.exists_mem_of_ne_nil yr hne
          obtain ⟨y0, hy0, -⟩ := hrange r0 hr0
          rw [hy0]
          rw [List.all_eq_true]
          intro r hr
          obtain ⟨y1, hy1, ha, hb⟩ := hrange r hr
          rw [hy0] at hy1
          simp only [Option.some.injEq] at hy1
          subst hy1
          exact decide_eq_true ⟨ha, hb⟩
        · rfl
  refine ⟨hmain, ?_⟩
  intro query row hnone hne
  cases hb : textYearStage query row
  · rfl
  · exfalso
    obtain ⟨-, hy, hr⟩ := (hmain query row).mp hb
    rcases hne with hne | hne
    · obtain ⟨y0, hy0⟩ := List.exists_mem_of_ne_nil _ hne
      rw [hnone] at hy
      exact Option.noConfusion (hy y0 hy0)
    · obtain ⟨r0, hr0⟩ := List.exists_mem_of_ne_nil _ hne
      obtain ⟨y1, hy1, -⟩ := hr r0 hr0
      rw [hnone] at hy1
      exact Option.noConfusion hy1

/-- C6 witness: a record titled "Bohemian Rhapsody" by Queen, year 1980,
passes the query with text token `que`, exact year 1980 and range
1975–1983; the same record with a null year fails it. -/
theorem C6_text_year_stage_witness :
    textYearStage wQuery wQueryRow = true ∧
    textYearStage wQuery { wQueryRow with year := none } = false := by
  constructor
  · exact (C6_text_year_stage.1 wQuery wQueryRow).mpr (by decide)
  · exact C6_text_year_stage.2 wQuery _ rfl (by simp [wQuery])

/-- C7: the retention breakdown is all-or-nothing — if any of the nine
named sub-fields is missing or fails to coerce to a finite number the whole
breakdown is `null`, and if all nine coerce the breakdown holds exactly
those nine numeric values; and the normalizer stores exactly
`toRetentionBreakdown(item.retentionBreakdown ?? item.retention_breakdown)`
in every record. -/
theorem C7_retention_breakdown_all_or_nothing :
    (∀ fields : List (String × JVal),
      ((∃ k ∈ retentionBreakdownKeys, jsToNumber (jget (.jobj fields) k) = none) →
        toRetentionBreakdown (.jobj fields) = none) ∧
      ((∀ k ∈ retentionBreakdownKeys, (jsToNumber (jget (.jobj fields) k)).isSome) →
        ∃ b, toRetentionBreakdown (.jobj fields) = some b ∧
          ∀ k ∈ retentionBreakdownKeys,
            breakdownField b k = jsToNumber (jget (.jobj fields) k))) ∧
    (∀ items row, row ∈ parseVideoIndexRows items →
      row.retentionBreakdown =
        toRetentionBreakdown (jvalCoalesce row.raw.retentionBreakdown row.raw.retention_breakdown)) := by
  constructor
  · intro fields
    constructor
    · rintro ⟨k, hk, hnone⟩
      simp only [retentionBreakdownKeys, List.mem_cons, List.not_mem_nil, or_false] at hk
      rcases hk with rfl | rfl | rfl | rfl | rfl | rfl | rfl | rfl | rfl <;>
        · simp only [toRetentionBreakdown, hnone]
          repeat' split
          all_goals rfl
    · intro hall
      have h1 := Option.isSome_iff_exists.mp (hall "xmlLifetimePlaycount" (by simp [retentionBreakdownKeys]))
      have h2 := Option.isSome_iff_exists.mp (hall "historicalPlays" (by simp [retentionBreakdownKeys]))
      have h3 := Option.isSome_iff_exists.mp (hall "eventDiversity" (by simp [retentionBreakdownKeys]))
      have h4 := Option.isSome_iff_exists.mp (hall "bpmTransitionUtility" (by simp [retentionBreakdownKeys]))
      have h5 := Option.isSome_iff_exists.mp (hall "genreCoverageUniqueness" (by simp [retentionBreakdownKeys]))
      have h6 := Option.isSome_iff_exists.mp (hall "artistPresenceNetwork" (by simp [retentionBreakdownKeys]))
      have h7 := Option.isSome_iff_exists.mp (hall "eraRelevance" (by simp [retentionBreakdownKeys]))
      have h8 := Option.isSome_iff_exists.mp (hall "metadataCompleteness" (by simp [retentionBreakdownKeys]))
      have h9 := Option.isSome_iff_exists.mp (hall "freshnessCurve" (by simp [retentionBreakdownKeys]))
      obtain ⟨a, ha⟩ := h1
      obtain ⟨b, hb⟩ := h2
      obtain ⟨c, hc⟩ := h3
      obtain ⟨d, hd⟩ := h4
      obtain ⟨e, he⟩ := h5
      obtain ⟨f, hf⟩ := h6
      obtain ⟨g, hg⟩ := h7
      obtain ⟨h, hh⟩ := h8
      obtain ⟨i, hi⟩ := h9
      refine ⟨⟨a, b, c, d, e, f, g, h, i⟩, ?_, ?_⟩
      · simp only [toRetentionBreakdown, ha, hb, hc, hd, he, hf, hg, hh, hi]
      · intro k hk
        simp only [retentionBreakdownKeys, List.mem_cons, List.not_mem_nil, or_false] at hk
        rcases hk with rfl | rfl | rfl | rfl | rfl | rfl | rfl | rfl | rfl <;>
          simp [breakdownField, ha, hb, hc, hd, he, hf, hg, hh, hi]
  · intro items row hrow
    exact parseRowsGo_forall (P := fun row => row.retentionBreakdown =
        toRetentionBreakdown (jvalCoalesce row.raw.retentionBreakdown row.raw.retention_breakdown))
      (fun ids idx item r ids' hp => by
        obtain ⟨hraw, -, -, hbd, -⟩ := parseStep_some_spec hp
        rw [hbd, hraw]) items [] 0 row hrow

/-- C7 witness: an input object missing `xmlLifetimePlaycount` yields a
null breakdown; the full nine-field object yields a non-null one. -/
theorem C7_retention_breakdown_witness :
    toRetentionBreakdown (.jobj wBreakdownMissing) = none ∧
    (toRetentionBreakdown (.jobj wBreakdownFull)).isSome = true := by
  constructor
  · exact ((C7_retention_breakdown_all_or_nothing.1 wBreakdownMissing).1
      ⟨"xmlLifetimePlaycount", by decide, by decide⟩)
  · obtain ⟨b, hb, -⟩ := (C7_retention_breakdown_all_or_nothing.1 wBreakdownFull).2 (by decide)
    rw [hb]
    rfl

theorem findCross_lt : ∀ {ws : List ℚ} {c : ℚ} {i : ℕ}, findCross ws c = some i → i < ws.length := by
  intro ws
  induction ws with
  | nil => intro c i h; simp [findCross] at h
  | cons w rest ih =>
    intro c i h
    simp only [findCross] at h
    split at h
    · rw [Option.some.injEq] at h
      simp [← h]
    · rcases hm : findCross rest (c - w) with _ | j
      · rw [hm] at h
        exact Option.noConfusion h
      · rw [hm] at h
        simp only [Option.map_some', Option.some.injEq] at h
        have := ih hm
        simp only [List.length_cons]
        omega

theorem pickIndex_lt {ws : List ℚ} (hws : ws ≠ []) (c : ℚ) :
    (findCross ws c).getD 0 < ws.length := by
  rcases h : findCross ws c with _ | i
  · simpa using List.length_pos.mpr hws
  · simpa using findCross_lt h

theorem perm_getD_cons_eraseIdx {α : Type} [Inhabited α] :
    ∀ (l : List α) (i : ℕ), i < l.length → l.Perm (l.getD i default :: l.eraseIdx i) := by
  intro l
  induction l with
  | nil => intro i h; simp at h
  | cons x xs ih =>
    intro i h
    cases i with
    | zero => exact List.Perm.refl _
    | succ j =>
      have hj : j < xs.length := by simpa using h
      have h1 : (x :: xs).Perm (x :: (xs.getD j default :: xs.eraseIdx j)) :=
        List.Perm.cons x (ih j hj)
      have h2 : (x :: xs.getD j default :: xs.eraseIdx j).Perm
          (xs.getD j default :: x :: xs.eraseIdx j) := List.Perm.swap _ _ _
      exact h1.trans h2

theorem weightedPickGo_length (intensity : ℚ) (hw : String → Option ℚ) (rand : ℕ → ℚ)
    (count : Int) :
    ∀ (fuel : ℕ) (available picks : List VideoRecord) (rIdx : ℕ),
      available.length ≤ fuel →
      (weightedPickGo intensity hw rand count fuel available picks rIdx).length =
        picks.length + min (count.toNat - picks.length) available.length := by
  intro fuel
  induction fuel with
  | zero =>
    intro available picks rIdx hf
    have h0 : available.length = 0 := Nat.le_zero.mp hf
    simp [weightedPickGo, h0]
  | succ f ih =>
    intro available picks rIdx hf
    simp only [weightedPickGo]
    split
    · rename_i hcond
      obtain ⟨hlen, hcnt⟩ := hcond
      have hwlen : (available.enum.map (drawWeight intensity hw rand rIdx)).length =
          available.length := by
        rw [List.length_map, List.enum_length]
      have hne : available.enum.map (drawWeight intensity hw rand rIdx) ≠ [] := by
        intro h0
        rw [h0] at hwlen
        simp at hwlen
        omega
      have hsel := pickIndex_lt hne
        (rand (rIdx + available.length) *
          ((available.enum.map (drawWeight intensity hw rand rIdx)).foldl
            (fun sum value => sum + value) 0))
      rw [hwlen] at hsel
      have herase : (available.eraseIdx
          ((findCross (available.enum.map (drawWeight intensity hw rand rIdx))
            (rand (rIdx + available.length) *
              ((available.enum.map (drawWeight intensity hw rand rIdx)).foldl
                (fun sum value => sum + value) 0))).getD 0)).length = available.length - 1 :=
        List.length_eraseIdx_of_lt hsel
      rw [ih _ _ _ (by omega)]
      rw [herase]
      simp only [List.length_append, List.length_singleton]
      omega
    · rename_i hcond
      rw [not_and_or] at hcond
      rcases hcond with hcond | hcond
    -- either the pool is exhausted or the requested count is reached
      · have h0 : available.length = 0 := by omega
        simp [h0]
      · have : count ≤ (picks.length : Int) := by omega
        have h0 : count.toNat ≤ picks.length := by omega
        simp
        omega

theorem weightedPickGo_subperm (intensity : ℚ) (hw : String → Option ℚ) (rand : ℕ → ℚ)
    (count : Int) :
    ∀ (fuel : ℕ) (available picks : List VideoRecord) (rIdx : ℕ),
      ∃ rest, (weightedPickGo intensity hw rand count fuel available picks rIdx ++ rest).Perm
        (picks ++ available) := by
  intro fuel
  induction fuel with
  | zero =>
    intro available picks rIdx
    exact ⟨available, List.Perm.refl _⟩
  | succ f ih =>
    intro available picks rIdx
    simp only [weightedPickGo]
    split
    · rename_i hcond
      obtain ⟨hlen, -⟩ := hcond
      have hwlen : (available.enum.map (drawWeight intensity hw rand rIdx)).length =
          available.length := by
        rw [List.length_map, List.enum_length]
      have hne : available.enum.map (drawWeight intensity hw rand rIdx) ≠ [] := by
        intro h0
        rw [h0] at hwlen
        simp at hwlen
        omega
      have hsel := pickIndex_lt hne
        (rand (rIdx + available.length) *
          ((available.enum.map (drawWeight intensity hw rand rIdx)).foldl
            (fun sum value => sum + value) 0))
      rw [hwlen] at hsel
      obtain ⟨rest, hrest⟩ := ih
        (available.eraseIdx
          ((findCross (available.enum.map (drawWeight intensity hw rand rIdx))
            (rand (rIdx + available.length) *
              ((available.enum.map (drawWeight intensity hw rand rIdx)).foldl
                (fun sum value => sum + value) 0))).getD 0))
        (picks ++ [available.getD
          ((findCross (available.enum.map (drawWeight intensity hw rand rIdx))
            (rand (rIdx + available.length) *
              ((available.enum.map (drawWeight intensity hw rand rIdx)).foldl
                (fun sum value => sum + value) 0))).getD 0) default])
        (rIdx + available.length + 1)
      refine ⟨rest, hrest.trans ?_⟩
      rw [List.append_assoc]
      simp only [List.singleton_append]
      exact List.Perm.append_left picks (perm_getD_cons_eraseIdx available _ hsel).symm
    · exact ⟨available, List.Perm.refl _⟩

/-- C8: for every pool, requested count, intensity, history-weight map and
random stream, `weightedPick` returns exactly `min(count, pool.length)`
records, drawn from the pool without replacement (the result is a
sub-permutation of the pool, and its ids are pairwise distinct whenever the
pool ids are); a non-positive count or an empty pool yields the empty
array. -/
theorem C8_weighted_sampler :
    (∀ (pool : List VideoRecord) (count : Int) (intensity : ℚ)
        (hw : String → Option ℚ) (rand : ℕ → ℚ),
      (weightedPick pool count intensity hw rand).length = min count.toNat pool.length) ∧
    (∀ (pool : List VideoRecord) (count : Int) (intensity : ℚ)
        (hw : String → Option ℚ) (rand : ℕ → ℚ),
      (weightedPick pool count intensity hw rand).Subperm pool) ∧
    (∀ (pool : List VideoRecord) (count : Int) (intensity : ℚ)
        (hw : String → Option ℚ) (rand : ℕ → ℚ),
      (pool.map (fun r => r.id)).Nodup →
      ((weightedPick pool count intensity hw rand).map (fun r => r.id)).Nodup) ∧
    (∀ (pool : List VideoRecord) (count : Int) (intensity : ℚ)
        (hw : String → Option ℚ) (rand : ℕ → ℚ), count ≤ 0 →
      weightedPick pool count intensity hw rand = []) ∧
    (∀ (count : Int) (intensity : ℚ) (hw : String → Option ℚ) (rand : ℕ → ℚ),
      weightedPick ([] : List VideoRecord) count intensity hw rand = []) := by
  have hlen : ∀ (pool : List VideoRecord) (count : Int) (intensity : ℚ)
      (hw : String → Option ℚ) (rand : ℕ → ℚ),
      (weightedPick pool count intensity hw rand).length = min count.toNat pool.length := by
    intro pool count intensity hw rand
    unfold weightedPick
    rw [weightedPickGo_length intensity hw rand count pool.length pool [] 0 le_rfl]
    simp
  have hsub : ∀ (pool : List VideoRecord) (count : Int) (intensity : ℚ)
      (hw : String → Option ℚ) (rand : ℕ → ℚ),
      (weightedPick pool count intensity hw rand).Subperm pool := by
    intro pool count intensity hw rand
    obtain ⟨rest, hrest⟩ :=
      weightedPickGo_subperm intensity hw rand count pool.length pool [] 0
    have h1 : (weightedPick pool count intensity hw rand).Sublist
        (weightedPick pool count intensity hw rand ++ rest) := List.sublist_append_left _ _
    exact h1.subperm.trans (hrest.subperm)
  refine ⟨hlen, hsub, ?_, ?_, fun count intensity hw rand => rfl⟩
  · intro pool count intensity hw rand hnd
    obtain ⟨l, hperm, hsl⟩ := hsub pool count intensity hw rand
    exact (hperm.map (fun r => r.id)).nodup_iff.mp (hnd.sublist (hsl.map (fun r => r.id)))
  · intro pool count intensity hw rand hcnt
    have h0 := hlen pool count intensity hw rand
    rw [Int.toNat_of_nonpos hcnt] at h0
    simp only [Nat.zero_min] at h0
    exact List.eq_nil_of_length_eq_zero h0

/-- C8 witness: on the concrete two-record pool with count 5, the sampler's
ids are distinct, its length is `min 5 2`, and the empty pool yields
`[]`. -/
theorem C8_weighted_sampler_witness :
    (wPool.map (fun r => r.id)).Nodup ∧
    ((weightedPick wPool 5 1 (fun _ => none) (fun _ => 1 / 2)).map (fun r => r.id)).Nodup ∧
    (weightedPick wPool 5 1 (fun _ => none) (fun _ => 1 / 2)).length =
      min (5 : Int).toNat wPool.length ∧
    weightedPick ([] : List VideoRecord) 5 1 (fun _ => none) (fun _ => 1 / 2) = [] :=
  ⟨by decide, C8_weighted_sampler.2.2.1 wPool 5 1 (fun _ => none) (fun _ => 1 / 2) (by decide),
   C8_weighted_sampler.1 wPool 5 1 (fun _ => none) (fun _ => 1 / 2),
   C8_weighted_sampler.2.2.2.2 5 1 (fun _ => none) (fun _ => 1 / 2)⟩

theorem strIndexOfAux_spec {pat : List Char} :
    ∀ {cs : List Char} {i j : ℕ}, strIndexOfAux pat cs i = some j →
      i ≤ j ∧ pat = (cs.drop (j - i)).take pat.length := by
  intro cs
  induction cs with
  | nil =>
    intro i j h
    simp only [strIndexOfAux] at h
    split at h
    · rename_i hp
      rw [Option.some.injEq] at h
      subst h
      refine ⟨le_rfl, ?_⟩
      simp [hp]
    · exact Option.noConfusion h
  | cons c rest ih =>
    intro i j h
    simp only [strIndexOfAux] at h
    split at h
    · rename_i hp
      rw [Option.some.injEq] at h
      subst h
      simpa using hp
    · obtain ⟨h1, h2⟩ := ih h
      refine ⟨by omega, ?_⟩
      have hji : j - i = (j - (i + 1)) + 1 := by omega
      rw [hji]
      simpa using h2

theorem strIndexOf?_spec {s pat : String} {j : ℕ} (h : strIndexOf? s pat = some j) :
    pat.data = (s.data.drop j).take pat.data.length := by
  have h2 := (strIndexOfAux_spec h).2
  simpa using h2

theorem prefix_after_marker {l : List Char} {idx : ℕ}
    (h : "/VIDEO/".data = (l.drop idx).take 7) :
    ∃ rest, l.drop (idx + 1) = "VIDEO/".data ++ rest := by
  refine ⟨(l.drop idx).drop 7, ?_⟩
  have h1 : l.drop idx = "/VIDEO/".data ++ (l.drop idx).drop 7 := by
    conv_lhs => rw [← List.take_append_drop 7 (l.drop idx)]
    rw [← h]
  have h2 : l.drop (idx + 1) = (l.drop idx).drop 1 := by
    rw [List.drop_drop]
  rw [h2, h1]
  rfl

theorem normalizeVideoPath_rel_spec {p r : String}
    (h : (normalizeVideoPath p).relativePath = some r) :
    strStartsWith r "VIDEO/" = true ∧ strStartsWith r "/" = false := by
  simp only [normalizeVideoPath] at h
  split at h
  · exact Option.noConfusion h
  · split at h
    · exact Option.noConfusion h
    · rename_i idx heq
      rw [Option.some.injEq] at h
      subst h
      have hspec : "/VIDEO/".data = (p.data.drop idx).take 7 := strIndexOf?_spec heq
      obtain ⟨rest, hdrop⟩ := prefix_after_marker hspec
      have hr : (replaceBackslashes (strDrop p (idx + 1))).data =
          "VIDEO/".data ++ rest.map (fun c => if c = '\\' then '/' else c) := by
        show (p.data.drop (idx + 1)).map (fun c => if c = '\\' then '/' else c) = _
        rw [hdrop, List.map_append]
        rfl
      constructor
      · simp only [strStartsWith, decide_eq_true_eq, hr]
        have : ("VIDEO/".data).length = 6 := rfl
        rw [show ("VIDEO/".data.length) = ("VIDEO/".data).length from rfl]
        rw [List.take_left]
      · simp only [strStartsWith, decide_eq_false_iff_not, hr]
        intro hcontra
        have h1 := congrArg (fun l => l.take 1) hcontra
        simp only [List.take_take] at h1
        norm_num at h1
        exact absurd h1 (by decide)

theorem historyDerivedKey_starts {k rel : String} (h : historyDerivedKey k = some rel) :
    strStartsWith rel "/VIDEO/" = true := by
  simp only [historyDerivedKey] at h
  split at h
  · rename_i m heq
    rw [Option.some.injEq] at h
    subst h
    simp only [strStartsWith, decide_eq_true_eq]
    show _ = ((("/VIDEO/" ++ strDrop (replaceBackslashes k) (m + 7)).data).map
      (fun c => if c = '\\' then '/' else c)).take ("/VIDEO/".data.length)
    rw [String.data_append, List.map_append]
    rw [show (("/VIDEO/".data).map (fun c => if c = '\\' then '/' else c)) = "/VIDEO/".data from rfl]
    rw [show ("/VIDEO/".data.length) = ("/VIDEO/".data).length from rfl]
    rw [List.take_left]
  · exact Option.noConfusion h

theorem startsWith_V_ne_slash {a b : String}
    (ha : strStartsWith a "VIDEO/" = true) (hb : strStartsWith b "/VIDEO/" = true) :
    a ≠ b := by
  intro he
  subst he
  simp only [strStartsWith, decide_eq_true_eq] at ha hb
  have h1 := congrArg (fun l => l.take 1) ha
  have h2 := congrArg (fun l => l.take 1) hb
  simp only [List.take_take] at h1 h2
  norm_num at h1 h2
  rw [← h2] at h1
  exact absurd h1 (by decide)

/-- C9 (implicit): every marker-relative key the history-weight aggregation
derives begins with `/VIDEO/` (leading slash), while every normalized
record's `filePath` begins with `VIDEO/` and not with a slash; consequently
the sampler's history lookup keyed by a record's `filePath` can never equal
a derived marker-relative entry — it can only hit a raw history key that
literally equals the `filePath`. -/
theorem C9_history_key_disjointness :
    (∀ (perSong : List (String × JVal)) (k : String), k ∈ historyDerivedKeys perSong →
      strStartsWith k "/VIDEO/" = true) ∧
    (∀ items row, row ∈ parseVideoIndexRows items →
      strStartsWith row.filePath "VIDEO/" = true ∧ strStartsWith row.filePath "/" = false) ∧
    (∀ (perSong : List (String × JVal)) (k : String) items row,
      k ∈ historyDerivedKeys perSong → row ∈ parseVideoIndexRows items →
      row.filePath ≠ k) := by
  have hderived : ∀ (perSong : List (String × JVal)) (k : String),
      k ∈ historyDerivedKeys perSong → strStartsWith k "/VIDEO/" = true := by
    intro perSong k hk
    obtain ⟨kv, -, hkv⟩ := List.mem_filterMap.mp hk
    exact historyDerivedKey_starts hkv
  have hrows : ∀ items row, row ∈ parseVideoIndexRows items →
      strStartsWith row.filePath "VIDEO/" = true ∧ strStartsWith row.filePath "/" = false := by
    intro items row hrow
    exact parseRowsGo_forall (P := fun row =>
        strStartsWith row.filePath "VIDEO/" = true ∧ strStartsWith row.filePath "/" = false)
      (fun ids idx item r ids' hp => by
        obtain ⟨-, -, -, -, -, hrel, -⟩ := parseStep_some_spec hp
        exact normalizeVideoPath_rel_spec hrel) items [] 0 row hrow
  refine ⟨hderived, hrows, ?_⟩
  intro perSong k items row hk hrow
  exact startsWith_V_ne_slash (hrows items row hrow).1 (hderived perSong k hk)

/-- C9 witness: the derived key `/VIDEO/a.mp4` of the concrete history
document differs from the concrete record's `filePath`
(`VIDEO/x.mp4`). -/
theorem C9_history_key_disjointness_witness :
    "/VIDEO/a.mp4" ∈ historyDerivedKeys wPerSong ∧
    wTierRow ∈ parseVideoIndexRows wTierItems ∧
    wTierRow.filePath ≠ "/VIDEO/a.mp4" := by
  have hmem : wTierRow ∈ parseVideoIndexRows wTierItems := by
    rw [show parseVideoIndexRows wTierItems = [wTierRow] from rfl]
    exact List.mem_singleton.mpr rfl
  exact ⟨by decide, hmem,
    C9_history_key_disjointness.2.2 wPerSong "/VIDEO/a.mp4" wTierItems wTierRow (by decide) hmem⟩

/-- C10 (implicit): `normalizeVideoPath` searches for the forward-slash
marker `/VIDEO/` before any backslash conversion, so a path whose VIDEO
segment appears only with backslash separators (no `/` at all, or at least
no `/VIDEO/` substring) resolves to null relative and absolute paths — in
particular `C:\Media\VIDEO\clip.mp4` — and the record normalizer drops
such an item entirely (every surviving row's raw path contains the
forward-slash marker); backslashes are converted only in the portion
starting one character past a found forward-slash marker. -/
theorem C10_backslash_paths_dropped :
    (∀ p : String, strIndexOf? p "/VIDEO/" = none → normalizeVideoPath p = ⟨none, none⟩) ∧
    (∀ p : String, '/' ∉ p.data → normalizeVideoPath p = ⟨none, none⟩) ∧
    normalizeVideoPath "C:\\Media\\VIDEO\\clip.mp4" = ⟨none, none⟩ ∧
    parseVideoIndexRows [cexBackslashItem] = [] ∧
    (∀ items row, row ∈ parseVideoIndexRows items →
      strIndexOf? (asString (jvalCoalesce row.raw.filePath row.raw.filepath)) "/VIDEO/" ≠ none) ∧
    (∀ (p : String) (idx : ℕ), strIndexOf? p "/VIDEO/" = some idx →
      (normalizeVideoPath p).relativePath = some (replaceBackslashes (strDrop p (idx + 1)))) := by
  have hnone : ∀ p : String, strIndexOf? p "/VIDEO/" = none → normalizeVideoPath p = ⟨none, none⟩ := by
    intro p h
    simp only [normalizeVideoPath]
    split
    · rfl
    · rw [h]
  refine ⟨hnone, ?_, by decide, by rfl, ?_, ?_⟩
  · intro p hns
    rcases h : strIndexOf? p "/VIDEO/" with _ | idx
    · exact hnone p h
    · exfalso
      apply hns
      have hspec : "/VIDEO/".data = (p.data.drop idx).take 7 := strIndexOf?_spec h
      have hmem : '/' ∈ (p.data.drop idx).take 7 := by
        rw [← hspec]
        decide
      exact List.drop_subset idx p.data (List.take_subset 7 _ hmem)
  · intro items row hrow
    exact parseRowsGo_forall (P := fun row =>
        strIndexOf? (asString (jvalCoalesce row.raw.filePath row.raw.filepath)) "/VIDEO/" ≠ none)
      (fun ids idx item r ids' hp => by
        obtain ⟨hraw, -, -, -, -, hrel, -⟩ := parseStep_some_spec hp
        rw [hraw]
        intro hidx
        rw [hnone _ hidx] at hrel
        exact Option.noConfusion hrel) items [] 0 row hrow
  · intro p idx h
    have hp : p ≠ "" := by
      intro he
      subst he
      rw [show strIndexOf? "" "/VIDEO/" = none from by decide] at h
      exact Option.noConfusion h
    simp only [normalizeVideoPath]
    rw [if_neg hp, h]

/-- C10 witness: the all-backslash path has no forward-slash marker and
resolves to null/null. -/
theorem C10_backslash_paths_dropped_witness :
    strIndexOf? "C:\\Media\\VIDEO\\clip.mp4" "/VIDEO/" = none ∧
    normalizeVideoPath "C:\\Media\\VIDEO\\clip.mp4" = ⟨none, none⟩ :=
  ⟨by decide, C10_backslash_paths_dropped.1 "C:\\Media\\VIDEO\\clip.mp4" (by decide)⟩
